/-
Verification development for the Battleship game repository.

The game engine (phases, boards, placement, attack resolution, win
detection, reset) is embedded from `src/components/Game.jsx` (the same
handlers appear, extended with AI bookkeeping, in
`src/components/Controls.jsx`); the computer-opponent strategies and
randomized fleet placement are embedded from `src/utils/aiPlayer.js`.

JavaScript cell values null / "S" / "H" / "M" are modelled by the
inductive type `Cell` (empty / ship / hit / miss); a board is a total
function `Fin 10 → Fin 10 → Cell`.  `Math.floor(Math.random() * k)`
produces exactly the integers `0 ≤ i < k`, so random draws are modelled
by universally quantified supplies: a `Nat` reduced modulo the list
length for index choices, and a stream `Nat → Fin 10 × Fin 10 × Bool`
for the placement loop's coordinate/orientation draws.
-/
import Mathlib

namespace Battleship

/-- Cell states of a board: JS `null`, `"S"`, `"H"`, `"M"`. -/
inductive Cell where
  | empty
  | ship
  | hit
  | miss
deriving DecidableEq, Repr

/-- `BOARD_SIZE = 10` in every source file. -/
def BOARD_SIZE : Nat := 10

/-- A 10×10 board, one `Cell` per coordinate. -/
def Board : Type := Fin 10 → Fin 10 → Cell

instance : DecidableEq Board := by unfold Board; infer_instance

/-- `emptyBoard()` from Game.jsx: every cell `null`. -/
def emptyBoard : Board := fun _ _ => Cell.empty

/-- Read a board at `Nat` coordinates; all embedded code paths check
`r < 10` and `c < 10` before reading, so the out-of-range default is
never reached on those paths. -/
def cellAt (b : Board) (r c : Nat) : Cell :=
  if h : r < 10 ∧ c < 10 then b ⟨r, h.1⟩ ⟨c, h.2⟩ else Cell.empty

/-- Functional update of a single board cell (JS `board[x][y] = v`). -/
def updateBoard (b : Board) (x y : Fin 10) (v : Cell) : Board :=
  fun i j => if i = x ∧ j = y then v else b i j

/-- Update at `Nat` coordinates, guarded by the bounds the source
checks before every write. -/
def setCellNat (b : Board) (r c : Nat) (v : Cell) : Board :=
  if h : r < 10 ∧ c < 10 then updateBoard b ⟨r, h.1⟩ ⟨c, h.2⟩ v else b

/-- The two players (`currentPlayer` is `1` or `2` in the source). -/
inductive Player where
  | one
  | two
deriving DecidableEq, Repr

/-- `prev === 1 ? 2 : 1`. -/
def Player.other : Player → Player
  | .one => .two
  | .two => .one

/-- Game phases `"placement" | "battle" | "gameOver"`. -/
inductive Phase where
  | placement
  | battle
  | gameOver
deriving DecidableEq, Repr

/-- Ship orientation strings `"horizontal" | "vertical"`. -/
inductive Orientation where
  | horizontal
  | vertical
deriving DecidableEq, Repr

/-- One catalog entry of the `SHIPS` constant. -/
structure Ship where
  name : String
  size : Nat
deriving DecidableEq, Repr

/-- The `SHIPS` catalog, identical in Game.jsx, Controls.jsx and
aiPlayer.js. -/
def SHIPS : List Ship :=
  [⟨"Carrier", 5⟩, ⟨"Battleship", 4⟩, ⟨"Cruiser", 3⟩,
   ⟨"Submarine", 3⟩, ⟨"Destroyer", 2⟩]

/-- The React state of the `Game` component (Game.jsx lines 23-31). -/
structure GameState where
  phase : Phase
  currentPlayer : Player
  boards : Player → Board
  winner : Option Player
  lastAction : String
  currentShipIndex : Nat
  orientation : Orientation
  scores : Player → Nat
  totalGames : Nat

/-- Replace one player's board (`setBoards((prev) => ({ ...prev,
[p]: newBoard }))`). -/
def setBoardOf (f : Player → Board) (p : Player) (b : Board) : Player → Board :=
  fun q => if q = p then b else f q

/-- Increment one player's score (`setScores` updater in
`handleAttack`). -/
def bumpScore (sc : Player → Nat) (p : Player) : Player → Nat :=
  fun q => if q = p then sc q + 1 else sc q

/-- `newBoard.some((row) => row.includes("S"))`. -/
def hasShipsLeft (b : Board) : Bool :=
  (List.finRange 10).any fun i =>
    (List.finRange 10).any fun j => decide (b i j = Cell.ship)

/-- The attack report carried by `actionMessage` ("Hit!" / "Miss!"),
with `noop` for the early-return paths. -/
inductive AttackReport where
  | hit
  | miss
  | noop
deriving DecidableEq, Repr

/-- `Player N wins!` message of `handleAttack`. -/
def winMessage : Player → String
  | .one => "Player 1 wins!"
  | .two => "Player 2 wins!"

/-- Tail of `handleAttack` after a mutating attack: store the new
defender board, then either declare the winner (no `"S"` left) or pass
the turn. -/
def attackOutcome (s : GameState) (enemyPlayer : Player) (newBoard : Board)
    (report : AttackReport) (msg : String) : GameState × AttackReport :=
  if hasShipsLeft newBoard then
    ({ s with boards := setBoardOf s.boards enemyPlayer newBoard,
              lastAction := msg,
              currentPlayer := s.currentPlayer.other }, report)
  else
    ({ s with boards := setBoardOf s.boards enemyPlayer newBoard,
              lastAction := winMessage s.currentPlayer,
              winner := some s.currentPlayer,
              phase := Phase.gameOver,
              scores := bumpScore s.scores s.currentPlayer,
              totalGames := s.totalGames + 1 }, report)

/-- `handleAttack(enemyPlayer, x, y)` from Game.jsx lines 83-120. -/
def handleAttack (s : GameState) (enemyPlayer : Player) (x y : Fin 10) :
    GameState × AttackReport :=
  if s.phase ≠ Phase.battle then (s, AttackReport.noop)
  else
    match s.boards enemyPlayer x y with
    | Cell.ship =>
        attackOutcome s enemyPlayer
          (updateBoard (s.boards enemyPlayer) x y Cell.hit) AttackReport.hit "Hit!"
    | Cell.empty =>
        attackOutcome s enemyPlayer
          (updateBoard (s.boards enemyPlayer) x y Cell.miss) AttackReport.miss "Miss!"
    | _ => (s, AttackReport.noop)

/-- The run of cells a ship would occupy (`row`/`col` computation shared
by `handlePlaceShip`, `randomizeShips` and `placeAIShips`). -/
def shipRun (x y : Nat) (o : Orientation) (size : Nat) : List (Nat × Nat) :=
  (List.range size).map fun i =>
    match o with
    | .horizontal => (x, y + i)
    | .vertical => (x + i, y)

/-- The validation loop: every cell in bounds and not already `"S"`
(`row >= BOARD_SIZE || col >= BOARD_SIZE || board[row][col] === "S"`
rejects). -/
def canPlaceRun (b : Board) (cells : List (Nat × Nat)) : Bool :=
  cells.all fun rc =>
    decide (rc.1 < 10) && decide (rc.2 < 10) &&
      decide (cellAt b rc.1 rc.2 ≠ Cell.ship)

/-- The mutation loop: mark every cell of the run `"S"`. -/
def placeRun (b : Board) (cells : List (Nat × Nat)) : Board :=
  cells.foldl (fun acc rc => setCellNat acc rc.1 rc.2 Cell.ship) b

/-- `handlePlaceShip(x, y)` from Game.jsx lines 40-81: validate the run,
place it, and advance the ship index / player / phase. -/
def handlePlaceShip (s : GameState) (x y : Nat) : GameState :=
  let ship := SHIPS.getD s.currentShipIndex ⟨"", 0⟩
  let cells := shipRun x y s.orientation ship.size
  if canPlaceRun (s.boards s.currentPlayer) cells then
    let newBoards :=
      setBoardOf s.boards s.currentPlayer
        (placeRun (s.boards s.currentPlayer) cells)
    let s1 := { s with boards := newBoards }
    if s.currentShipIndex + 1 < SHIPS.length then
      { s1 with currentShipIndex := s.currentShipIndex + 1 }
    else if s.currentPlayer = Player.one then
      { s1 with currentPlayer := Player.two, currentShipIndex := 0 }
    else
      { s1 with phase := Phase.battle, currentPlayer := Player.one,
                lastAction := "Player 1's turn to attack!" }
  else s

/-- `restartGame()` from Game.jsx lines 122-130.  It does not touch
`scores` or `totalGames`. -/
def restartGame (s : GameState) : GameState :=
  { s with boards := fun _ => emptyBoard,
           phase := Phase.placement,
           currentPlayer := Player.one,
           winner := none,
           lastAction := "",
           currentShipIndex := 0,
           orientation := Orientation.horizontal }

/-- The `directions` array of `getAdjacentCells`. -/
def directions : List (Int × Int) := [(0, 1), (0, -1), (1, 0), (-1, 0)]

/-- `getAdjacentCells(x, y, board)` from aiPlayer.js: the orthogonal
neighbours that are in bounds and neither `"H"` nor `"M"`. -/
def getAdjacentCells (x y : Nat) (b : Board) : List (Nat × Nat) :=
  directions.filterMap fun d =>
    let newX : Int := (x : Int) + d.1
    let newY : Int := (y : Int) + d.2
    if 0 ≤ newX ∧ newX < 10 ∧ 0 ≤ newY ∧ newY < 10 ∧
        cellAt b newX.toNat newY.toNat ≠ Cell.hit ∧
        cellAt b newX.toNat newY.toNat ≠ Cell.miss then
      some (newX.toNat, newY.toNat)
    else none

/-- The row-major enumeration of the board performed by every
`for x { for y { ... } }` scan in aiPlayer.js. -/
def allPositions : List (Nat × Nat) :=
  (List.range 10).flatMap fun x => (List.range 10).map fun y => (x, y)

/-- `findIncompleteHits(board)`: the `"H"` cells that still have an
adjacent unexplored cell, in row-major scan order. -/
def findIncompleteHits (b : Board) : List (Nat × Nat) :=
  allPositions.filter fun rc =>
    decide (cellAt b rc.1 rc.2 = Cell.hit) &&
      (getAdjacentCells rc.1 rc.2 b).any fun a =>
        decide (cellAt b a.1 a.2 ≠ Cell.hit) &&
          decide (cellAt b a.1 a.2 ≠ Cell.miss)

/-- `getShipDirection(hits, board)`: same row ⇒ `"horizontal"`, same
column ⇒ `"vertical"` (the board argument is unused in the source
too). -/
def getShipDirection (hits : List (Nat × Nat)) (_b : Board) : Option Orientation :=
  match hits with
  | h1 :: h2 :: _ =>
      if h1.1 = h2.1 then some Orientation.horizontal
      else if h1.2 = h2.2 then some Orientation.vertical
      else none
  | _ => none

/-- `getDirectionCells(hit, direction, board)`: the up-to-2 neighbours
of `hit` along the inferred axis that are in bounds and not yet
resolved, offset `-1` before `+1`. -/
def getDirectionCells (hit : Nat × Nat) (direction : Orientation) (b : Board) :
    List (Nat × Nat) :=
  match direction with
  | .horizontal =>
      ([-1, 1] : List Int).filterMap fun offset =>
        let newY : Int := (hit.2 : Int) + offset
        if 0 ≤ newY ∧ newY < 10 ∧
            cellAt b hit.1 newY.toNat ≠ Cell.hit ∧
            cellAt b hit.1 newY.toNat ≠ Cell.miss then
          some (hit.1, newY.toNat)
        else none
  | .vertical =>
      ([-1, 1] : List Int).filterMap fun offset =>
        let newX : Int := (hit.1 : Int) + offset
        if 0 ≤ newX ∧ newX < 10 ∧
            cellAt b newX.toNat hit.2 ≠ Cell.hit ∧
            cellAt b newX.toNat hit.2 ≠ Cell.miss then
          some (newX.toNat, hit.2)
        else none

/-- The cells `easyAI` collects: everything that is not `"H"` or
`"M"`. -/
def availableCells (b : Board) : List (Nat × Nat) :=
  allPositions.filter fun rc =>
    decide (cellAt b rc.1 rc.2 ≠ Cell.hit) &&
      decide (cellAt b rc.1 rc.2 ≠ Cell.miss)

/-- `easyAI(board)`: a random member of `availableCells`, `null` when
none exist.  `rand` stands for the single `Math.random()` draw; every
index `Math.floor(Math.random() * len)` can produce is realised by some
`rand % len` and vice versa. -/
def easyAI (b : Board) (rand : Nat) : Option (Nat × Nat) :=
  let available := availableCells b
  if available.isEmpty then none
  else available.get? (rand % available.length)

/-- `mediumAI(board)`: a random adjacent cell of the first incomplete
hit, falling back to `easyAI`. -/
def mediumAI (b : Board) (rand : Nat) : Option (Nat × Nat) :=
  let incompleteHits := findIncompleteHits b
  match incompleteHits with
  | hit :: _ =>
      let adjacent := getAdjacentCells hit.1 hit.2 b
      if adjacent.isEmpty then easyAI b rand
      else adjacent.get? (rand % adjacent.length)
  | [] => easyAI b rand

/-- The checkerboard cells `hardAI` collects: unresolved and
`(x + y) % 2 = 0`. -/
def checkerboardCells (b : Board) : List (Nat × Nat) :=
  allPositions.filter fun rc =>
    (decide (cellAt b rc.1 rc.2 ≠ Cell.hit) &&
       decide (cellAt b rc.1 rc.2 ≠ Cell.miss)) &&
      decide ((rc.1 + rc.2) % 2 = 0)

/-- The complement cells `hardAI` collects: unresolved and
`(x + y) % 2 ≠ 0`. -/
def regularCells (b : Board) : List (Nat × Nat) :=
  allPositions.filter fun rc =>
    (decide (cellAt b rc.1 rc.2 ≠ Cell.hit) &&
       decide (cellAt b rc.1 rc.2 ≠ Cell.miss)) &&
      decide ((rc.1 + rc.2) % 2 ≠ 0)

/-- `hardAI(board)`: direction inference from the first two incomplete
hits, then neighbour-count-sorted targeting around the last incomplete
hit, then the random checkerboard search, then `easyAI`.  The in-place
stable `adjacent.sort((a, b) => bAdjacent - aAdjacent)` (descending by
adjacent-unknown count) is modelled by the stable `List.mergeSort`. -/
def hardAI (b : Board) (rand : Nat) : Option (Nat × Nat) :=
  let incompleteHits := findIncompleteHits b
  let directionTarget : Option (Nat × Nat) :=
    if 2 ≤ incompleteHits.length then
      match getShipDirection incompleteHits b with
      | some direction =>
          match incompleteHits.head? with
          | some h1 => (getDirectionCells h1 direction b).head?
          | none => none
      | none => none
    else none
  match directionTarget with
  | some c => some c
  | none =>
    let adjacentTarget : Option (Nat × Nat) :=
      match incompleteHits.getLast? with
      | some lastHit =>
          let adjacent := getAdjacentCells lastHit.1 lastHit.2 b
          let sorted := adjacent.mergeSort fun a c =>
            (getAdjacentCells c.1 c.2 b).length ≤
              (getAdjacentCells a.1 a.2 b).length
          sorted.head?
      | none => none
    match adjacentTarget with
    | some c => some c
    | none =>
      let cb := checkerboardCells b
      let reg := regularCells b
      if !cb.isEmpty then cb.get? (rand % cb.length)
      else if !reg.isEmpty then reg.get? (rand % reg.length)
      else easyAI b rand

/-- `getAIAttack(board, difficulty)`: dispatch on the difficulty
string; the `default` switch case runs `mediumAI`. -/
def getAIAttack (b : Board) (difficulty : String) (rand : Nat) :
    Option (Nat × Nat) :=
  if difficulty = "easy" then easyAI b rand
  else if difficulty = "medium" then mediumAI b rand
  else if difficulty = "hard" then hardAI b rand
  else mediumAI b rand

/-- The `while (!placed && attempts < N)` retry loop shared by
`placeAIShips` (aiPlayer.js) and `randomizeShips` (Controls.jsx).
`supply i` models the i-th attempt's two `Math.floor(Math.random()*10)`
draws and its `Math.random() > 0.5` orientation draw (`true` ↦
`"horizontal"`); `fuel` is the remaining attempt budget. -/
def placeLoop (size : Nat) (supply : Nat → Fin 10 × Fin 10 × Bool) :
    Board → Nat → Nat → Board × Nat
  | b, 0, idx => (b, idx)
  | b, fuel + 1, idx =>
      let draw := supply idx
      let orient : Orientation :=
        if draw.2.2 then Orientation.horizontal else Orientation.vertical
      let cells := shipRun draw.1 draw.2.1 orient size
      if canPlaceRun b cells then (placeRun b cells, idx + 1)
      else placeLoop size supply b fuel (idx + 1)

/-- The `for (const ship of SHIPS)` loop around `placeLoop`, started on
an empty board. -/
def placeFleet (bound : Nat) (supply : Nat → Fin 10 × Fin 10 × Bool) : Board :=
  (SHIPS.foldl (fun acc ship => placeLoop ship.size supply acc.1 bound acc.2)
    (emptyBoard, 0)).1

/-- `placeAIShips()` from aiPlayer.js: the retry bound is 200. -/
def placeAIShips (supply : Nat → Fin 10 × Fin 10 × Bool) : Board :=
  placeFleet 200 supply

/-- The board built by `randomizeShips()` in Controls.jsx: the same
loop with retry bound 100. -/
def randomizeShipsBoard (supply : Nat → Fin 10 × Fin 10 × Bool) : Board :=
  placeFleet 100 supply

/-! ### Helper lemmas -/

theorem Player.other_ne (p : Player) : p.other ≠ p := by
  cases p <;> decide

theorem setBoardOf_same (f : Player → Board) (p : Player) (b : Board) :
    setBoardOf f p b p = b := by
  simp [setBoardOf]

theorem setBoardOf_ne (f : Player → Board) (p q : Player) (b : Board)
    (h : q ≠ p) : setBoardOf f p b q = f q := by
  simp [setBoardOf, h]

theorem updateBoard_same (b : Board) (x y : Fin 10) (v : Cell) :
    updateBoard b x y v x y = v := by
  simp [updateBoard]

theorem updateBoard_ne (b : Board) (x y i j : Fin 10) (v : Cell)
    (h : ¬(i = x ∧ j = y)) : updateBoard b x y v i j = b i j := by
  simp [updateBoard, h]

theorem hasShipsLeft_iff (b : Board) :
    hasShipsLeft b = true ↔ ∃ i j, b i j = Cell.ship := by
  simp [hasShipsLeft, List.any_eq_true, List.mem_finRange]

/-! ### Claim theorems: the game engine -/

/-- C5.  The reset operation empties both boards, returns to the
placement phase with player 1 active, ship index 0, horizontal
orientation and no winner, and leaves both scores and the total-games
count untouched. -/
theorem restartGame_resets_but_keeps_scores (s : GameState) :
    (restartGame s).boards Player.one = emptyBoard ∧
    (restartGame s).boards Player.two = emptyBoard ∧
    (restartGame s).phase = Phase.placement ∧
    (restartGame s).currentPlayer = Player.one ∧
    (restartGame s).currentShipIndex = 0 ∧
    (restartGame s).orientation = Orientation.horizontal ∧
    (restartGame s).winner = none ∧
    (restartGame s).scores = s.scores ∧
    (restartGame s).totalGames = s.totalGames := by
  refine ⟨rfl, rfl, rfl, rfl, rfl, rfl, rfl, rfl, rfl⟩

/-- C2.  An attack on an already resolved cell, or any attack outside
the battle phase, returns the state unchanged (every field identical)
and reports a no-op. -/
theorem attack_noop_on_resolved_or_wrong_phase (s : GameState)
    (enemyPlayer : Player) (x y : Fin 10)
    (h : s.boards enemyPlayer x y = Cell.hit ∨
         s.boards enemyPlayer x y = Cell.miss ∨
         s.phase ≠ Phase.battle) :
    handleAttack s enemyPlayer x y = (s, AttackReport.noop) := by
  unfold handleAttack
  by_cases hp : s.phase = Phase.battle
  · rcases h with hcell | hcell | hph
    · rw [hcell]; simp [hp]
    · rw [hcell]; simp [hp]
    · exact absurd hp hph
  · simp [hp]

/-- Witness for C2 at a concrete state: a battle state whose defender
cell (0,0) is already `Hit`. -/
theorem attack_noop_on_resolved_or_wrong_phase_witness :
    handleAttack
      { phase := Phase.battle, currentPlayer := Player.one,
        boards := fun _ => updateBoard emptyBoard 0 0 Cell.hit,
        winner := none, lastAction := "", currentShipIndex := 0,
        orientation := Orientation.horizontal, scores := fun _ => 0,
        totalGames := 0 } Player.two 0 0 =
    ({ phase := Phase.battle, currentPlayer := Player.one,
       boards := fun _ => updateBoard emptyBoard 0 0 Cell.hit,
       winner := none, lastAction := "", currentShipIndex := 0,
       orientation := Orientation.horizontal, scores := fun _ => 0,
       totalGames := 0 }, AttackReport.noop) := by
  exact attack_noop_on_resolved_or_wrong_phase _ Player.two 0 0
    (Or.inl (by simp [updateBoard, emptyBoard]))

theorem handleAttack_not_battle (s : GameState) (e : Player) (x y : Fin 10)
    (h : s.phase ≠ Phase.battle) :
    handleAttack s e x y = (s, AttackReport.noop) := by
  unfold handleAttack; simp [h]

theorem handleAttack_ship (s : GameState) (e : Player) (x y : Fin 10)
    (hph : s.phase = Phase.battle) (hcell : s.boards e x y = Cell.ship) :
    handleAttack s e x y =
      attackOutcome s e (updateBoard (s.boards e) x y Cell.hit)
        AttackReport.hit "Hit!" := by
  unfold handleAttack
  rw [hcell]
  simp [hph]

theorem handleAttack_empty (s : GameState) (e : Player) (x y : Fin 10)
    (hph : s.phase = Phase.battle) (hcell : s.boards e x y = Cell.empty) :
    handleAttack s e x y =
      attackOutcome s e (updateBoard (s.boards e) x y Cell.miss)
        AttackReport.miss "Miss!" := by
  unfold handleAttack
  rw [hcell]
  simp [hph]

theorem attackOutcome_report (s : GameState) (e : Player) (nb : Board)
    (rep : AttackReport) (msg : String) :
    (attackOutcome s e nb rep msg).2 = rep := by
  unfold attackOutcome; split <;> rfl

theorem attackOutcome_boards (s : GameState) (e : Player) (nb : Board)
    (rep : AttackReport) (msg : String) :
    (attackOutcome s e nb rep msg).1.boards = setBoardOf s.boards e nb := by
  unfold attackOutcome; split <;> rfl

theorem attackOutcome_turn (s : GameState) (e : Player) (nb : Board)
    (rep : AttackReport) (msg : String) (h : hasShipsLeft nb = true) :
    (attackOutcome s e nb rep msg).1.currentPlayer = s.currentPlayer.other := by
  unfold attackOutcome; simp [h]

theorem attackOutcome_win (s : GameState) (e : Player) (nb : Board)
    (rep : AttackReport) (msg : String) (h : hasShipsLeft nb = false) :
    (attackOutcome s e nb rep msg).1.phase = Phase.gameOver ∧
    (attackOutcome s e nb rep msg).1.winner = some s.currentPlayer ∧
    (attackOutcome s e nb rep msg).1.scores = bumpScore s.scores s.currentPlayer ∧
    (attackOutcome s e nb rep msg).1.totalGames = s.totalGames + 1 := by
  unfold attackOutcome; simp [h]

/-- C1.  In the battle phase, an attack on a `Ship` cell marks exactly
that cell `Hit` and reports a hit; on an `Empty` cell it marks exactly
that cell `Miss` and reports a miss; in either case, if the defender
still has a `Ship` cell afterwards, the turn passes to the other
player. -/
theorem attack_resolves_and_switches (s : GameState) (enemyPlayer : Player)
    (x y : Fin 10) (hph : s.phase = Phase.battle) :
    (s.boards enemyPlayer x y = Cell.ship →
      (handleAttack s enemyPlayer x y).2 = AttackReport.hit ∧
      (handleAttack s enemyPlayer x y).1.boards enemyPlayer x y = Cell.hit ∧
      (∀ i j : Fin 10, ¬(i = x ∧ j = y) →
        (handleAttack s enemyPlayer x y).1.boards enemyPlayer i j =
          s.boards enemyPlayer i j) ∧
      (handleAttack s enemyPlayer x y).1.boards enemyPlayer.other =
        s.boards enemyPlayer.other) ∧
    (s.boards enemyPlayer x y = Cell.empty →
      (handleAttack s enemyPlayer x y).2 = AttackReport.miss ∧
      (handleAttack s enemyPlayer x y).1.boards enemyPlayer x y = Cell.miss ∧
      (∀ i j : Fin 10, ¬(i = x ∧ j = y) →
        (handleAttack s enemyPlayer x y).1.boards enemyPlayer i j =
          s.boards enemyPlayer i j) ∧
      (handleAttack s enemyPlayer x y).1.boards enemyPlayer.other =
        s.boards enemyPlayer.other) ∧
    ((s.boards enemyPlayer x y = Cell.ship ∨
        s.boards enemyPlayer x y = Cell.empty) →
      hasShipsLeft ((handleAttack s enemyPlayer x y).1.boards enemyPlayer) = true →
      (handleAttack s enemyPlayer x y).1.currentPlayer = s.currentPlayer.other) := by
  refine ⟨?_, ?_, ?_⟩
  · intro hcell
    rw [handleAttack_ship s enemyPlayer x y hph hcell]
    refine ⟨attackOutcome_report .., ?_, ?_, ?_⟩
    · rw [attackOutcome_boards, setBoardOf_same, updateBoard_same]
    · intro i j hij
      rw [attackOutcome_boards, setBoardOf_same, updateBoard_ne _ _ _ _ _ _ hij]
    · rw [attackOutcome_boards, setBoardOf_ne _ _ _ _ (Player.other_ne _)]
  · intro hcell
    rw [handleAttack_empty s enemyPlayer x y hph hcell]
    refine ⟨attackOutcome_report .., ?_, ?_, ?_⟩
    · rw [attackOutcome_boards, setBoardOf_same, updateBoard_same]
    · intro i j hij
      rw [attackOutcome_boards, setBoardOf_same, updateBoard_ne _ _ _ _ _ _ hij]
    · rw [attackOutcome_boards, setBoardOf_ne _ _ _ _ (Player.other_ne _)]
  · rintro (hcell | hcell) hships
    · rw [handleAttack_ship s enemyPlayer x y hph hcell] at hships ⊢
      rw [attackOutcome_boards, setBoardOf_same] at hships
      exact attackOutcome_turn _ _ _ _ _ hships
    · rw [handleAttack_empty s enemyPlayer x y hph hcell] at hships ⊢
      rw [attackOutcome_boards, setBoardOf_same] at hships
      exact attackOutcome_turn _ _ _ _ _ hships

/-- A battle state used by the engine witnesses: player 2's board has
ship segments at (0,0) and (0,1). -/
def witnessBattleState : GameState :=
  { phase := Phase.battle, currentPlayer := Player.one,
    boards := fun _ =>
      updateBoard (updateBoard emptyBoard 0 0 Cell.ship) 0 1 Cell.ship,
    winner := none, lastAction := "", currentShipIndex := 0,
    orientation := Orientation.horizontal, scores := fun _ => 0,
    totalGames := 0 }

/-- Witness for C1: attacking the ship segment at (0,0) of
`witnessBattleState` reports a hit, marks the cell, and passes the turn
to player 2. -/
theorem attack_resolves_and_switches_witness :
    (handleAttack witnessBattleState Player.two 0 0).2 = AttackReport.hit ∧
    (handleAttack witnessBattleState Player.two 0 0).1.boards Player.two 0 0 =
      Cell.hit ∧
    (handleAttack witnessBattleState Player.two 0 0).1.currentPlayer =
      Player.two := by
  have h := attack_resolves_and_switches witnessBattleState Player.two 0 0 rfl
  have hcell : witnessBattleState.boards Player.two 0 0 = Cell.ship := by decide
  have h1 := h.1 hcell
  refine ⟨h1.1, h1.2.1, ?_⟩
  have hships :
      hasShipsLeft
        ((handleAttack witnessBattleState Player.two 0 0).1.boards Player.two) =
        true := by decide
  exact h.2.2 (Or.inl hcell) hships

/-- C3.  Hitting the defender's last remaining ship segment ends the
game: the phase becomes `gameOver`, the attacker becomes the winner,
the attacker's score and the total-games count each grow by exactly
one, the other score is untouched, and every later attack, on either
board and any coordinate, is a state-preserving no-op. -/
theorem attack_sinks_last_ship_ends_game (s : GameState)
    (enemyPlayer : Player) (x y : Fin 10) (hph : s.phase = Phase.battle)
    (hcell : s.boards enemyPlayer x y = Cell.ship)
    (hlast : ∀ i j : Fin 10, s.boards enemyPlayer i j = Cell.ship →
      i = x ∧ j = y) :
    (handleAttack s enemyPlayer x y).1.phase = Phase.gameOver ∧
    (handleAttack s enemyPlayer x y).1.winner = some s.currentPlayer ∧
    (handleAttack s enemyPlayer x y).1.scores s.currentPlayer =
      s.scores s.currentPlayer + 1 ∧
    (handleAttack s enemyPlayer x y).1.scores s.currentPlayer.other =
      s.scores s.currentPlayer.other ∧
    (handleAttack s enemyPlayer x y).1.totalGames = s.totalGames + 1 ∧
    ∀ (e' : Player) (x' y' : Fin 10),
      handleAttack (handleAttack s enemyPlayer x y).1 e' x' y' =
        ((handleAttack s enemyPlayer x y).1, AttackReport.noop) := by
  have hno : hasShipsLeft (updateBoard (s.boards enemyPlayer) x y Cell.hit) =
      false := by
    cases hh : hasShipsLeft (updateBoard (s.boards enemyPlayer) x y Cell.hit)
    · rfl
    · exfalso
      obtain ⟨i, j, hij⟩ := (hasShipsLeft_iff _).mp hh
      unfold updateBoard at hij
      by_cases hc : i = x ∧ j = y
      · simp [hc] at hij
      · simp only [hc, if_false] at hij
        exact hc (hlast i j hij)
  rw [handleAttack_ship s enemyPlayer x y hph hcell]
  obtain ⟨hw1, hw2, hw3, hw4⟩ := attackOutcome_win s enemyPlayer
    (updateBoard (s.boards enemyPlayer) x y Cell.hit)
    AttackReport.hit "Hit!" hno
  refine ⟨hw1, hw2, ?_, ?_, hw4, ?_⟩
  · rw [hw3]; simp [bumpScore]
  · rw [hw3]; simp [bumpScore, Player.other_ne]
  · intro e' x' y'
    exact handleAttack_not_battle _ e' x' y' (by rw [hw1]; decide)

/-- A battle state whose defender (player 2) has exactly one ship
segment left, at (0,0). -/
def witnessLastShipState : GameState :=
  { phase := Phase.battle, currentPlayer := Player.one,
    boards := fun _ => updateBoard emptyBoard 0 0 Cell.ship,
    winner := none, lastAction := "", currentShipIndex := 0,
    orientation := Orientation.horizontal, scores := fun _ => 0,
    totalGames := 0 }

/-- Witness for C3: sinking the last segment at (0,0) ends the game,
crowns player 1, bumps the score and game count, and makes a follow-up
attack a no-op. -/
theorem attack_sinks_last_ship_ends_game_witness :
    (handleAttack witnessLastShipState Player.two 0 0).1.phase =
      Phase.gameOver ∧
    (handleAttack witnessLastShipState Player.two 0 0).1.winner =
      some Player.one ∧
    (handleAttack witnessLastShipState Player.two 0 0).1.scores Player.one = 1 ∧
    (handleAttack witnessLastShipState Player.two 0 0).1.totalGames = 1 ∧
    handleAttack (handleAttack witnessLastShipState Player.two 0 0).1
        Player.two 3 3 =
      ((handleAttack witnessLastShipState Player.two 0 0).1,
        AttackReport.noop) := by
  have h := attack_sinks_last_ship_ends_game witnessLastShipState Player.two 0 0
    rfl (by decide) (by decide)
  exact ⟨h.1, h.2.1, h.2.2.1, h.2.2.2.2.1, h.2.2.2.2.2 Player.two 3 3⟩

theorem cellAt_fin (b : Board) (i j : Fin 10) :
    cellAt b i.val j.val = b i j := by
  unfold cellAt
  rw [dif_pos ⟨i.isLt, j.isLt⟩]

theorem cellAt_setCellNat_ne (b : Board) (a c' : Nat) (v : Cell)
    (r c : Nat) (h : (r, c) ≠ (a, c')) :
    cellAt (setCellNat b a c' v) r c = cellAt b r c := by
  unfold setCellNat
  by_cases h1 : a < 10 ∧ c' < 10
  · rw [dif_pos h1]
    unfold cellAt updateBoard
    by_cases h2 : r < 10 ∧ c < 10
    · rw [dif_pos h2, dif_pos h2]
      have hne : ¬((⟨r, h2.1⟩ : Fin 10) = ⟨a, h1.1⟩ ∧
          (⟨c, h2.2⟩ : Fin 10) = ⟨c', h1.2⟩) := by
        simp only [Fin.mk.injEq]
        intro hc
        exact h (by simp [hc.1, hc.2])
      rw [if_neg hne]
    · rw [dif_neg h2, dif_neg h2]
  · rw [dif_neg h1]

theorem cellAt_setCellNat_self (b : Board) (a c' : Nat) (v : Cell)
    (h1 : a < 10) (h2 : c' < 10) :
    cellAt (setCellNat b a c' v) a c' = v := by
  unfold setCellNat
  rw [dif_pos ⟨h1, h2⟩]
  unfold cellAt updateBoard
  rw [dif_pos ⟨h1, h2⟩, if_pos ⟨rfl, rfl⟩]

theorem cellAt_placeRun_not_mem (cells : List (Nat × Nat)) (b : Board)
    (r c : Nat) (h : (r, c) ∉ cells) :
    cellAt (placeRun b cells) r c = cellAt b r c := by
  induction cells generalizing b with
  | nil => rfl
  | cons d rest ih =>
      have hd : (r, c) ≠ d := fun hc => h (hc ▸ List.mem_cons_self d rest)
      have hrest : (r, c) ∉ rest := fun hc => h (List.mem_cons_of_mem d hc)
      show cellAt (placeRun (setCellNat b d.1 d.2 Cell.ship) rest) r c = _
      rw [ih _ hrest, cellAt_setCellNat_ne _ _ _ _ _ _ hd]

theorem cellAt_placeRun_mem (cells : List (Nat × Nat)) (b : Board)
    (rc : Nat × Nat) (hmem : rc ∈ cells) (h1 : rc.1 < 10) (h2 : rc.2 < 10) :
    cellAt (placeRun b cells) rc.1 rc.2 = Cell.ship := by
  induction cells generalizing b with
  | nil => exact absurd hmem (List.not_mem_nil rc)
  | cons d rest ih =>
      show cellAt (placeRun (setCellNat b d.1 d.2 Cell.ship) rest) rc.1 rc.2 = _
      by_cases hrest : rc ∈ rest
      · exact ih _ hrest
      · have hd : rc = d := by
          rcases List.mem_cons.mp hmem with h | h
          · exact h
          · exact absurd h hrest
        subst hd
        rw [cellAt_placeRun_not_mem _ _ _ _ hrest]
        exact cellAt_setCellNat_self _ _ _ _ h1 h2

/-- C4.  A placement request whose run leaves the board or touches an
existing `"S"` cell is rejected with no state change; a request whose
run is in bounds and empty marks exactly the run `"S"` and advances the
catalog: to the next ship for the same player, to player 2 after player
1's fifth ship, and into the battle phase with player 1 active after
player 2's fifth ship. -/
theorem placeShip_validates_and_advances (s : GameState) (x y : Nat)
    (hidx : s.currentShipIndex < SHIPS.length) :
    ((∃ rc ∈ shipRun x y s.orientation
          (SHIPS.getD s.currentShipIndex ⟨"", 0⟩).size,
        ¬(rc.1 < 10 ∧ rc.2 < 10) ∨
          cellAt (s.boards s.currentPlayer) rc.1 rc.2 = Cell.ship) →
      handlePlaceShip s x y = s) ∧
    ((∀ rc ∈ shipRun x y s.orientation
          (SHIPS.getD s.currentShipIndex ⟨"", 0⟩).size,
        rc.1 < 10 ∧ rc.2 < 10 ∧
          cellAt (s.boards s.currentPlayer) rc.1 rc.2 = Cell.empty) →
      (∀ rc ∈ shipRun x y s.orientation
          (SHIPS.getD s.currentShipIndex ⟨"", 0⟩).size,
        cellAt ((handlePlaceShip s x y).boards s.currentPlayer) rc.1 rc.2 =
          Cell.ship) ∧
      (∀ i j : Fin 10,
        (i.val, j.val) ∉ shipRun x y s.orientation
          (SHIPS.getD s.currentShipIndex ⟨"", 0⟩).size →
        (handlePlaceShip s x y).boards s.currentPlayer i j =
          s.boards s.currentPlayer i j) ∧
      (handlePlaceShip s x y).boards s.currentPlayer.other =
        s.boards s.currentPlayer.other ∧
      (s.currentShipIndex + 1 < SHIPS.length →
        (handlePlaceShip s x y).currentShipIndex = s.currentShipIndex + 1 ∧
        (handlePlaceShip s x y).currentPlayer = s.currentPlayer ∧
        (handlePlaceShip s x y).phase = s.phase) ∧
      (s.currentShipIndex + 1 = SHIPS.length → s.currentPlayer = Player.one →
        (handlePlaceShip s x y).currentPlayer = Player.two ∧
        (handlePlaceShip s x y).currentShipIndex = 0 ∧
        (handlePlaceShip s x y).phase = s.phase) ∧
      (s.currentShipIndex + 1 = SHIPS.length → s.currentPlayer = Player.two →
        (handlePlaceShip s x y).phase = Phase.battle ∧
        (handlePlaceShip s x y).currentPlayer = Player.one)) := by
  constructor
  · rintro ⟨rc, hrc, hbad⟩
    have hcan : canPlaceRun (s.boards s.currentPlayer)
        (shipRun x y s.orientation
          (SHIPS.getD s.currentShipIndex ⟨"", 0⟩).size) = false := by
      cases hc : canPlaceRun (s.boards s.currentPlayer)
          (shipRun x y s.orientation
            (SHIPS.getD s.currentShipIndex ⟨"", 0⟩).size) with
      | false => rfl
      | true =>
          exfalso
          unfold canPlaceRun at hc
          rw [List.all_eq_true] at hc
          have := hc rc hrc
          simp only [Bool.and_eq_true, decide_eq_true_eq] at this
          rcases hbad with hb | hb
          · exact hb ⟨this.1.1, this.1.2⟩
          · exact this.2 hb
    unfold handlePlaceShip
    simp only [hcan, Bool.false_eq_true, if_false]
  · intro hemp
    have hcan : canPlaceRun (s.boards s.currentPlayer)
        (shipRun x y s.orientation
          (SHIPS.getD s.currentShipIndex ⟨"", 0⟩).size) = true := by
      unfold canPlaceRun
      rw [List.all_eq_true]
      intro rc hrc
      obtain ⟨h1, h2, h3⟩ := hemp rc hrc
      simp [h1, h2, h3]
    have hboards : (handlePlaceShip s x y).boards =
        setBoardOf s.boards s.currentPlayer
          (placeRun (s.boards s.currentPlayer)
            (shipRun x y s.orientation
              (SHIPS.getD s.currentShipIndex ⟨"", 0⟩).size)) := by
      unfold handlePlaceShip
      simp only [hcan, if_true]
      split_ifs <;> rfl
    refine ⟨?_, ?_, ?_, ?_, ?_, ?_⟩
    · intro rc hrc
      rw [hboards, setBoardOf_same]
      exact cellAt_placeRun_mem _ _ _ hrc (hemp rc hrc).1 (hemp rc hrc).2.1
    · intro i j hij
      rw [hboards, setBoardOf_same]
      have h := cellAt_placeRun_not_mem
        (shipRun x y s.orientation
          (SHIPS.getD s.currentShipIndex ⟨"", 0⟩).size)
        (s.boards s.currentPlayer) i.val j.val hij
      rw [cellAt_fin, cellAt_fin] at h
      exact h
    · rw [hboards, setBoardOf_ne _ _ _ _ (Player.other_ne _)]
    · intro hmid
      unfold handlePlaceShip
      simp only [hcan, if_true]
      split_ifs
      exact ⟨rfl, rfl, rfl⟩
    · intro hlast hone
      have hnot : ¬ (s.currentShipIndex + 1 < SHIPS.length) := by omega
      unfold handlePlaceShip
      simp only [hcan, if_true]
      split_ifs
      exact ⟨rfl, rfl, rfl⟩
    · intro hlast htwo
      have hnot : ¬ (s.currentShipIndex + 1 < SHIPS.length) := by omega
      unfold handlePlaceShip
      simp only [hcan, if_true]
      split_ifs with h1
      · exact absurd (htwo.symm.trans h1) (by decide)
      · exact ⟨rfl, rfl⟩

/-- The initial state of the `Game` component. -/
def initialState : GameState :=
  { phase := Phase.placement, currentPlayer := Player.one,
    boards := fun _ => emptyBoard, winner := none, lastAction := "",
    currentShipIndex := 0, orientation := Orientation.horizontal,
    scores := fun _ => 0, totalGames := 0 }

/-- Witness for C4: placing the Carrier horizontally at (0,0) on the
fresh board marks (0,2), moves the catalog to ship 1, and leaves player
and phase alone. -/
theorem placeShip_validates_and_advances_witness :
    cellAt ((handlePlaceShip initialState 0 0).boards Player.one) 0 2 =
      Cell.ship ∧
    (handlePlaceShip initialState 0 0).currentShipIndex = 1 ∧
    (handlePlaceShip initialState 0 0).currentPlayer = Player.one ∧
    (handlePlaceShip initialState 0 0).phase = Phase.placement := by
  have h := placeShip_validates_and_advances initialState 0 0 (by decide)
  have hemp : ∀ rc ∈ shipRun 0 0 initialState.orientation
      (SHIPS.getD initialState.currentShipIndex ⟨"", 0⟩).size,
      rc.1 < 10 ∧ rc.2 < 10 ∧
        cellAt (initialState.boards initialState.currentPlayer) rc.1 rc.2 =
          Cell.empty := by decide
  obtain ⟨hcells, huntouched, hother, hmid, hone5, htwo5⟩ := h.2 hemp
  obtain ⟨hi, hp, hph⟩ := hmid (by decide)
  exact ⟨hcells (0, 2) (by decide), hi, hp, hph⟩

/-! ### Randomized fleet placement (C6) -/

/-- Boards containing only `null` and `"S"` cells. -/
def EmptyOrShip (b : Board) : Prop :=
  ∀ i j : Fin 10, b i j = Cell.empty ∨ b i j = Cell.ship

/-- A board reachable from `start` by repeatedly placing whole ship
runs, where each run passed the source's validation (`canPlaceRun`: a
contiguous horizontal or vertical run, fully in bounds, no `"S"` cell)
and moreover landed only on cells that were empty at placement time —
so no two placed runs overlap. -/
inductive PlacedValidly : Board → Board → Prop where
  | refl (b : Board) : PlacedValidly b b
  | step (start b : Board) (x y : Nat) (o : Orientation) (size : Nat)
      (chain : PlacedValidly start b)
      (hcan : canPlaceRun b (shipRun x y o size) = true)
      (hempty : ∀ rc ∈ shipRun x y o size,
        cellAt b rc.1 rc.2 = Cell.empty) :
      PlacedValidly start (placeRun b (shipRun x y o size))

theorem emptyOrShip_setCellNat (b : Board) (r c : Nat)
    (he : EmptyOrShip b) : EmptyOrShip (setCellNat b r c Cell.ship) := by
  intro i j
  unfold setCellNat
  split
  · unfold updateBoard
    split
    · right; rfl
    · exact he i j
  · exact he i j

theorem emptyOrShip_placeRun (cells : List (Nat × Nat)) (b : Board)
    (he : EmptyOrShip b) : EmptyOrShip (placeRun b cells) := by
  induction cells generalizing b with
  | nil => exact he
  | cons d rest ih =>
      exact ih _ (emptyOrShip_setCellNat _ _ _ he)

theorem cellAt_emptyOrShip (b : Board) (he : EmptyOrShip b) (r c : Nat) :
    cellAt b r c = Cell.empty ∨ cellAt b r c = Cell.ship := by
  unfold cellAt
  split
  · exact he _ _
  · left; rfl

theorem cells_empty_of_canPlace (b : Board) (cells : List (Nat × Nat))
    (hcan : canPlaceRun b cells = true) (he : EmptyOrShip b) :
    ∀ rc ∈ cells, cellAt b rc.1 rc.2 = Cell.empty := by
  intro rc hrc
  unfold canPlaceRun at hcan
  rw [List.all_eq_true] at hcan
  have := hcan rc hrc
  simp only [Bool.and_eq_true, decide_eq_true_eq] at this
  rcases cellAt_emptyOrShip b he rc.1 rc.2 with h | h
  · exact h
  · exact absurd h this.2

theorem placeLoop_preserves (size : Nat)
    (supply : Nat → Fin 10 × Fin 10 × Bool) (fuel idx : Nat) (b : Board)
    (he : EmptyOrShip b) (hc : PlacedValidly emptyBoard b) :
    EmptyOrShip (placeLoop size supply b fuel idx).1 ∧
    PlacedValidly emptyBoard (placeLoop size supply b fuel idx).1 := by
  induction fuel generalizing idx b with
  | zero => exact ⟨he, hc⟩
  | succ n ih =>
      simp only [placeLoop]
      split <;> split
      all_goals first
        | (rename_i hcan
           exact ⟨emptyOrShip_placeRun _ _ he,
             PlacedValidly.step _ _ _ _ _ _ hc hcan
               (cells_empty_of_canPlace _ _ hcan he)⟩)
        | exact ih _ _ he hc

theorem foldl_placeLoop_preserves (bound : Nat)
    (supply : Nat → Fin 10 × Fin 10 × Bool) (ships : List Ship)
    (acc : Board × Nat) (he : EmptyOrShip acc.1)
    (hc : PlacedValidly emptyBoard acc.1) :
    EmptyOrShip ((ships.foldl
        (fun a ship => placeLoop ship.size supply a.1 bound a.2) acc).1) ∧
    PlacedValidly emptyBoard ((ships.foldl
        (fun a ship => placeLoop ship.size supply a.1 bound a.2) acc).1) := by
  induction ships generalizing acc with
  | nil => exact ⟨he, hc⟩
  | cons ship rest ih =>
      have h := placeLoop_preserves ship.size supply bound acc.2 acc.1 he hc
      exact ih _ h.1 h.2

theorem placeFleet_valid (bound : Nat)
    (supply : Nat → Fin 10 × Fin 10 × Bool) :
    EmptyOrShip (placeFleet bound supply) ∧
    PlacedValidly emptyBoard (placeFleet bound supply) := by
  unfold placeFleet
  exact foldl_placeLoop_preserves bound supply SHIPS (emptyBoard, 0)
    (fun _ _ => Or.inl rfl) (PlacedValidly.refl _)

/-- C6.  For every random stream, the board produced by `placeAIShips`
(and likewise by `randomizeShips` in Controls.jsx) holds only `null`
and `"S"` cells and is reached from the empty board by a chain of
validated ship placements: each placed ship is a contiguous horizontal
or vertical run of in-bounds cells all empty at the moment it was
placed, hence no overlap and nothing outside the 10×10 board. -/
theorem randomFleet_placements_valid
    (supply : Nat → Fin 10 × Fin 10 × Bool) :
    (EmptyOrShip (placeAIShips supply) ∧
      PlacedValidly emptyBoard (placeAIShips supply)) ∧
    (EmptyOrShip (randomizeShipsBoard supply) ∧
      PlacedValidly emptyBoard (randomizeShipsBoard supply)) :=
  ⟨placeFleet_valid 200 supply, placeFleet_valid 100 supply⟩

/-! ### Opponent strategy lemmas (C7-C9) -/

/-- An attack-view board: only `Unknown` (null), `"H"` and `"M"`
cells, never `"S"` (spec §3, "Opponent attack-view board"). -/
def AttackView (b : Board) : Prop :=
  ∀ i j : Fin 10, b i j = Cell.empty ∨ b i j = Cell.hit ∨ b i j = Cell.miss

/-- Every cell of the board has been resolved. -/
def NoUnknown (b : Board) : Prop :=
  ∀ i j : Fin 10, b i j ≠ Cell.empty

/-- What C7 requires of a returned coordinate: in bounds and not yet
resolved. -/
def GoodTarget (b : Board) (p : Nat × Nat) : Prop :=
  p.1 < 10 ∧ p.2 < 10 ∧
    cellAt b p.1 p.2 ≠ Cell.hit ∧ cellAt b p.1 p.2 ≠ Cell.miss

theorem head?_mem {α : Type} {l : List α} {a : α} (h : l.head? = some a) :
    a ∈ l := by
  cases l with
  | nil => cases h
  | cons x xs =>
      simp only [List.head?_cons, Option.some.injEq] at h
      exact h ▸ List.mem_cons_self x xs

theorem get?_mod_some {α : Type} (l : List α) (r : Nat) (h : l ≠ []) :
    ∃ a, l.get? (r % l.length) = some a := by
  have hlen : 0 < l.length := List.length_pos.mpr h
  have hmod : r % l.length < l.length := Nat.mod_lt _ hlen
  exact ⟨l.get ⟨_, hmod⟩, List.get?_eq_get hmod⟩

theorem mem_allPositions (rc : Nat × Nat) :
    rc ∈ allPositions ↔ rc.1 < 10 ∧ rc.2 < 10 := by
  unfold allPositions
  rw [List.mem_flatMap]
  constructor
  · rintro ⟨a, ha, hmem⟩
    rw [List.mem_map] at hmem
    obtain ⟨c, hc, heq⟩ := hmem
    subst heq
    exact ⟨List.mem_range.mp ha, List.mem_range.mp hc⟩
  · rintro ⟨h1, h2⟩
    refine ⟨rc.1, List.mem_range.mpr h1, ?_⟩
    rw [List.mem_map]
    exact ⟨rc.2, List.mem_range.mpr h2, rfl⟩

theorem mem_availableCells (b : Board) (rc : Nat × Nat) :
    rc ∈ availableCells b ↔ GoodTarget b rc := by
  unfold availableCells GoodTarget
  rw [List.mem_filter, mem_allPositions]
  simp only [Bool.and_eq_true, decide_eq_true_eq]
  tauto

theorem mem_checkerboardCells (b : Board) (rc : Nat × Nat) :
    rc ∈ checkerboardCells b ↔ GoodTarget b rc ∧ (rc.1 + rc.2) % 2 = 0 := by
  unfold checkerboardCells GoodTarget
  rw [List.mem_filter, mem_allPositions]
  simp only [Bool.and_eq_true, decide_eq_true_eq]
  tauto

theorem mem_regularCells (b : Board) (rc : Nat × Nat) :
    rc ∈ regularCells b ↔ GoodTarget b rc ∧ (rc.1 + rc.2) % 2 ≠ 0 := by
  unfold regularCells GoodTarget
  rw [List.mem_filter, mem_allPositions]
  simp only [Bool.and_eq_true, decide_eq_true_eq]
  tauto

theorem mem_getAdjacentCells (b : Board) (x y : Nat) (rc : Nat × Nat)
    (h : rc ∈ getAdjacentCells x y b) : GoodTarget b rc := by
  unfold getAdjacentCells at h
  rw [List.mem_filterMap] at h
  obtain ⟨d, _, heq⟩ := h
  dsimp only at heq
  split at heq
  case isTrue hcond =>
      cases heq
      refine ⟨?_, ?_, hcond.2.2.2.2.1, hcond.2.2.2.2.2⟩
      · have := hcond.1
        have := hcond.2.1
        simp only
        omega
      · have := hcond.2.2.1
        have := hcond.2.2.2.1
        simp only
        omega
  case isFalse => cases heq

theorem mem_getDirectionCells (b : Board) (hit : Nat × Nat)
    (direction : Orientation) (rc : Nat × Nat)
    (hb1 : hit.1 < 10) (hb2 : hit.2 < 10)
    (h : rc ∈ getDirectionCells hit direction b) : GoodTarget b rc := by
  unfold getDirectionCells at h
  cases direction <;>
    · rw [List.mem_filterMap] at h
      obtain ⟨d, _, heq⟩ := h
      dsimp only at heq
      split at heq
      case isTrue hcond =>
          cases heq
          refine ⟨?_, ?_, hcond.2.2.1, hcond.2.2.2⟩ <;>
            · simp only
              omega
      case isFalse => cases heq

/-- Every incomplete hit is a `"H"` cell with at least one adjacent
unexplored cell. -/
theorem mem_findIncompleteHits (b : Board) (rc : Nat × Nat)
    (h : rc ∈ findIncompleteHits b) :
    rc.1 < 10 ∧ rc.2 < 10 ∧ cellAt b rc.1 rc.2 = Cell.hit ∧
      getAdjacentCells rc.1 rc.2 b ≠ [] := by
  unfold findIncompleteHits at h
  rw [List.mem_filter, mem_allPositions] at h
  obtain ⟨⟨h1, h2⟩, hp⟩ := h
  simp only [Bool.and_eq_true, decide_eq_true_eq, List.any_eq_true] at hp
  obtain ⟨hhit, a, ha, _⟩ := hp
  exact ⟨h1, h2, hhit, fun hnil => by rw [hnil] at ha; cases ha⟩

/-- With an attack view and no unknown cell left, no cell passes the
"not hit, not miss" tests. -/
theorem cellAt_resolved (b : Board) (hv : AttackView b) (hno : NoUnknown b)
    (r c : Nat) (h1 : r < 10) (h2 : c < 10) :
    cellAt b r c = Cell.hit ∨ cellAt b r c = Cell.miss := by
  unfold cellAt
  rw [dif_pos ⟨h1, h2⟩]
  rcases hv ⟨r, h1⟩ ⟨c, h2⟩ with h | h | h
  · exact absurd h (hno _ _)
  · exact Or.inl h
  · exact Or.inr h

theorem not_goodTarget_of_resolved (b : Board) (hv : AttackView b)
    (hno : NoUnknown b) (rc : Nat × Nat) : ¬ GoodTarget b rc := by
  rintro ⟨h1, h2, h3, h4⟩
  rcases cellAt_resolved b hv hno rc.1 rc.2 h1 h2 with h | h
  · exact h3 h
  · exact h4 h

theorem availableCells_ne_nil_of_unknown (b : Board) (i j : Fin 10)
    (h : b i j = Cell.empty) : availableCells b ≠ [] := by
  intro hnil
  have hmem : (i.val, j.val) ∈ availableCells b := by
    rw [mem_availableCells]
    refine ⟨i.isLt, j.isLt, ?_, ?_⟩ <;>
      · rw [cellAt_fin, h]
        decide
  rw [hnil] at hmem
  cases hmem

theorem availableCells_eq_nil (b : Board) (hv : AttackView b)
    (hno : NoUnknown b) : availableCells b = [] := by
  rw [List.eq_nil_iff_forall_not_mem]
  intro rc hmem
  exact not_goodTarget_of_resolved b hv hno rc
    ((mem_availableCells b rc).mp hmem)

theorem getAdjacentCells_eq_nil (b : Board) (hv : AttackView b)
    (hno : NoUnknown b) (x y : Nat) : getAdjacentCells x y b = [] := by
  rw [List.eq_nil_iff_forall_not_mem]
  intro rc hmem
  exact not_goodTarget_of_resolved b hv hno rc
    (mem_getAdjacentCells b x y rc hmem)

theorem findIncompleteHits_eq_nil (b : Board) (hv : AttackView b)
    (hno : NoUnknown b) : findIncompleteHits b = [] := by
  rw [List.eq_nil_iff_forall_not_mem]
  intro rc hmem
  have h := mem_findIncompleteHits b rc hmem
  exact h.2.2.2 (getAdjacentCells_eq_nil b hv hno rc.1 rc.2)

theorem checkerboardCells_eq_nil (b : Board) (hv : AttackView b)
    (hno : NoUnknown b) : checkerboardCells b = [] := by
  rw [List.eq_nil_iff_forall_not_mem]
  intro rc hmem
  exact not_goodTarget_of_resolved b hv hno rc
    ((mem_checkerboardCells b rc).mp hmem).1

theorem regularCells_eq_nil (b : Board) (hv : AttackView b)
    (hno : NoUnknown b) : regularCells b = [] := by
  rw [List.eq_nil_iff_forall_not_mem]
  intro rc hmem
  exact not_goodTarget_of_resolved b hv hno rc
    ((mem_regularCells b rc).mp hmem).1

theorem getLast?_mem {α : Type} {l : List α} {a : α}
    (h : l.getLast? = some a) : a ∈ l := by
  cases hl : l with
  | nil => subst hl; cases h
  | cons x xs =>
      subst hl
      rw [List.getLast?_eq_getLast _ (by simp)] at h
      simp only [Option.some.injEq] at h
      exact h ▸ List.getLast_mem _

theorem easyAI_eq_none_iff (b : Board) (rand : Nat) (hv : AttackView b) :
    easyAI b rand = none ↔ NoUnknown b := by
  unfold easyAI
  dsimp only
  by_cases he : (availableCells b).isEmpty
  · rw [if_pos he]
    constructor
    · intro _ i j hemp
      exact availableCells_ne_nil_of_unknown b i j hemp (List.isEmpty_iff.mp he)
    · intro _; rfl
  · rw [if_neg he]
    have hne : availableCells b ≠ [] := fun hnil =>
      he (List.isEmpty_iff.mpr hnil)
    constructor
    · intro hn
      obtain ⟨a, ha⟩ := get?_mod_some (availableCells b) rand hne
      rw [ha] at hn; cases hn
    · intro hno
      exact absurd (availableCells_eq_nil b hv hno) hne

theorem easyAI_some_goodTarget (b : Board) (rand : Nat) (p : Nat × Nat)
    (hp : easyAI b rand = some p) : GoodTarget b p := by
  unfold easyAI at hp
  dsimp only at hp
  split at hp
  · cases hp
  · exact (mem_availableCells b p).mp (List.get?_mem hp)

theorem mediumAI_some_goodTarget (b : Board) (rand : Nat) (p : Nat × Nat)
    (hp : mediumAI b rand = some p) : GoodTarget b p := by
  unfold mediumAI at hp
  cases hfl : findIncompleteHits b with
  | nil =>
      rw [hfl] at hp
      dsimp only at hp
      exact easyAI_some_goodTarget b rand p hp
  | cons hit rest =>
      rw [hfl] at hp
      dsimp only at hp
      split at hp
      · exact easyAI_some_goodTarget b rand p hp
      · exact mem_getAdjacentCells b hit.1 hit.2 p (List.get?_mem hp)

theorem mediumAI_eq_none_iff (b : Board) (rand : Nat) (hv : AttackView b) :
    mediumAI b rand = none ↔ NoUnknown b := by
  unfold mediumAI
  cases hfl : findIncompleteHits b with
  | nil =>
      dsimp only
      exact easyAI_eq_none_iff b rand hv
  | cons hit rest =>
      dsimp only
      constructor
      · intro hn
        split at hn
        · exact (easyAI_eq_none_iff b rand hv).mp hn
        · rename_i hne
          have hnenil : getAdjacentCells hit.1 hit.2 b ≠ [] := fun h =>
            hne (List.isEmpty_iff.mpr h)
          obtain ⟨a, ha⟩ := get?_mod_some _ rand hnenil
          rw [ha] at hn; cases hn
      · intro hno
        exfalso
        have hmem : hit ∈ findIncompleteHits b := by
          rw [hfl]; exact List.mem_cons_self _ _
        exact (mem_findIncompleteHits b hit hmem).2.2.2
          (getAdjacentCells_eq_nil b hv hno _ _)

theorem hardAI_some_goodTarget (b : Board) (rand : Nat) (p : Nat × Nat)
    (hp : hardAI b rand = some p) : GoodTarget b p := by
  unfold hardAI at hp
  dsimp only at hp
  split at hp
  case _ c heq =>
      cases hp
      split at heq
      · split at heq
        case _ direction hdir =>
            split at heq
            case _ h1 hh1 =>
                have hmem := head?_mem heq
                have hh1mem : h1 ∈ findIncompleteHits b := head?_mem hh1
                have hb := mem_findIncompleteHits b h1 hh1mem
                exact mem_getDirectionCells b h1 direction p hb.1 hb.2.1 hmem
            case _ => cases heq
        case _ => cases heq
      · cases heq
  case _ heq =>
      split at hp
      case _ c heq2 =>
          cases hp
          split at heq2
          case _ lastHit hlast =>
              have hmem := head?_mem heq2
              rw [List.mem_mergeSort] at hmem
              exact mem_getAdjacentCells b lastHit.1 lastHit.2 p hmem
          case _ => cases heq2
      case _ heq2 =>
          split at hp
          · exact ((mem_checkerboardCells b p).mp (List.get?_mem hp)).1
          · split at hp
            · exact ((mem_regularCells b p).mp (List.get?_mem hp)).1
            · exact easyAI_some_goodTarget b rand p hp

theorem hardAI_eq_none_iff (b : Board) (rand : Nat) (hv : AttackView b) :
    hardAI b rand = none ↔ NoUnknown b := by
  constructor
  · intro hn
    intro i j hij
    unfold hardAI at hn
    dsimp only at hn
    split at hn
    case _ c heq => cases hn
    case _ heq =>
        split at hn
        case _ c heq2 => cases hn
        case _ heq2 =>
            split at hn
            · rename_i hcb
              have hne : checkerboardCells b ≠ [] := by
                intro hnil
                rw [hnil] at hcb
                cases hcb
              obtain ⟨a, ha⟩ := get?_mod_some _ rand hne
              rw [ha] at hn; cases hn
            · split at hn
              · rename_i hreg
                have hne : regularCells b ≠ [] := by
                  intro hnil
                  rw [hnil] at hreg
                  cases hreg
                obtain ⟨a, ha⟩ := get?_mod_some _ rand hne
                rw [ha] at hn; cases hn
              · exact (easyAI_eq_none_iff b rand hv).mp hn i j hij
  · intro hno
    unfold hardAI
    rw [findIncompleteHits_eq_nil b hv hno,
      checkerboardCells_eq_nil b hv hno, regularCells_eq_nil b hv hno]
    simp
    exact (easyAI_eq_none_iff b rand hv).mpr hno

/-- C7.  On any attack-view board (cells only null/`"H"`/`"M"`), for
every difficulty string (unrecognized ones dispatch to `mediumAI`) and
every random draw, `getAIAttack` returns `null` exactly when no cell
is unknown, and any coordinate it returns is in bounds and neither hit
nor miss — in particular the easy strategy never picks a resolved
cell. -/
theorem getAIAttack_in_bounds_unresolved (b : Board) (difficulty : String)
    (rand : Nat) (hv : AttackView b) :
    (getAIAttack b difficulty rand = none ↔
      ∀ i j : Fin 10, b i j ≠ Cell.empty) ∧
    (∀ p : Nat × Nat, getAIAttack b difficulty rand = some p →
      p.1 < 10 ∧ p.2 < 10 ∧
        cellAt b p.1 p.2 ≠ Cell.hit ∧ cellAt b p.1 p.2 ≠ Cell.miss) := by
  unfold getAIAttack
  split_ifs with h1 h2 h3
  · exact ⟨easyAI_eq_none_iff b rand hv,
      fun p hp => easyAI_some_goodTarget b rand p hp⟩
  · exact ⟨mediumAI_eq_none_iff b rand hv,
      fun p hp => mediumAI_some_goodTarget b rand p hp⟩
  · exact ⟨hardAI_eq_none_iff b rand hv,
      fun p hp => hardAI_some_goodTarget b rand p hp⟩
  · exact ⟨mediumAI_eq_none_iff b rand hv,
      fun p hp => mediumAI_some_goodTarget b rand p hp⟩

/-- Witness for C7: on the all-unknown board the easy strategy does
return a target. -/
theorem getAIAttack_in_bounds_unresolved_witness :
    getAIAttack emptyBoard "easy" 0 ≠ none := by
  have h := getAIAttack_in_bounds_unresolved emptyBoard "easy" 0
    (fun _ _ => Or.inl rfl)
  intro hn
  exact h.1.mp hn 0 0 rfl

/-- C8.  On a board whose 100 cells are all unknown, the hard strategy
always answers a checkerboard coordinate: `(row + col) % 2 = 0`. -/
theorem hardAI_checkerboard_parity (b : Board) (rand : Nat)
    (h : ∀ i j : Fin 10, b i j = Cell.empty) :
    ∃ p : Nat × Nat, hardAI b rand = some p ∧ (p.1 + p.2) % 2 = 0 := by
  have hcellAt : ∀ r c, cellAt b r c = Cell.empty := by
    intro r c
    unfold cellAt
    split
    · exact h _ _
    · rfl
  have hfl : findIncompleteHits b = [] := by
    rw [List.eq_nil_iff_forall_not_mem]
    intro rc hmem
    have hhit := (mem_findIncompleteHits b rc hmem).2.2.1
    rw [hcellAt] at hhit
    cases hhit
  have hcb_ne : checkerboardCells b ≠ [] := by
    intro hnil
    have hmem : ((0 : Nat), (0 : Nat)) ∈ checkerboardCells b := by
      rw [mem_checkerboardCells]
      exact ⟨⟨by omega, by omega,
        by rw [hcellAt]; decide, by rw [hcellAt]; decide⟩, by decide⟩
    rw [hnil] at hmem
    cases hmem
  have hcbe : (checkerboardCells b).isEmpty = false := by
    cases hcbv : (checkerboardCells b).isEmpty
    · rfl
    · exact absurd (List.isEmpty_iff.mp hcbv) hcb_ne
  have heq : hardAI b rand =
      (checkerboardCells b).get? (rand % (checkerboardCells b).length) := by
    unfold hardAI
    rw [hfl]
    simp [hcbe]
  obtain ⟨a, ha⟩ := get?_mod_some _ rand hcb_ne
  refine ⟨a, heq ▸ ha, ?_⟩
  exact ((mem_checkerboardCells b a).mp (List.get?_mem ha)).2

/-- Witness for C8 at the all-unknown board. -/
theorem hardAI_checkerboard_parity_witness :
    ∃ p : Nat × Nat, hardAI emptyBoard 0 = some p ∧ (p.1 + p.2) % 2 = 0 :=
  hardAI_checkerboard_parity emptyBoard 0 (fun _ _ => rfl)

/-- C9.  When the first two incomplete hits (row-major order) share a
row (`getShipDirection` = `"horizontal"`) or a column (`"vertical"`),
and the first incomplete hit still has an unresolved neighbour along
that axis (`getDirectionCells` nonempty, listed offset −1 before +1),
the hard strategy attacks the first such neighbour. -/
theorem hardAI_directional_targeting (b : Board) (rand : Nat)
    (h1 h2 : Nat × Nat) (rest : List (Nat × Nat))
    (hfl : findIncompleteHits b = h1 :: h2 :: rest)
    (d : Orientation)
    (hdir : getShipDirection (h1 :: h2 :: rest) b = some d)
    (hne : getDirectionCells h1 d b ≠ []) :
    hardAI b rand = (getDirectionCells h1 d b).head? := by
  unfold hardAI
  rw [hfl]
  dsimp only
  rw [if_pos (by simp only [List.length_cons]; omega), hdir]
  simp only [List.head?_cons]
  cases hh : (getDirectionCells h1 d b).head? with
  | some c => rfl
  | none =>
      exfalso
      rw [List.head?_eq_none_iff] at hh
      exact hne hh

/-- The attack-view board whose only resolved cells are hits at (5,5)
and (5,6). -/
def boardTwoHits : Board := fun i j =>
  if (i.val = 5 ∧ j.val = 5) ∨ (i.val = 5 ∧ j.val = 6) then Cell.hit
  else Cell.empty

/-- Witness for C9: on `boardTwoHits` the hard strategy answers (5,4)
(hence (5,4) or (5,7) as the spec puts it). -/
theorem hardAI_directional_targeting_witness :
    hardAI boardTwoHits 0 = some (5, 4) ∨
    hardAI boardTwoHits 0 = some (5, 7) := by
  left
  have h := hardAI_directional_targeting boardTwoHits 0 (5, 5) (5, 6) []
    (by decide) Orientation.horizontal (by decide) (by decide)
  rw [h]
  decide

/-! ### State-threading embedding of the strategy selector (C10)

The JavaScript strategy functions receive `board` by reference; to
state that they never write to it, each is re-translated here in a
state-passing style: the board is threaded through every statement and
every element access goes through `readCell`.  The only primitive that
could change the thread is a write, and none of the translated
statements performs one; the claim theorem proves the output board is
the input board and that the threaded translation computes the same
answer as the direct one used for C7-C9. -/

/-- A computation reading (and in principle writing) the board. -/
def BoardM (α : Type) : Type := Board → α × Board

instance : Monad BoardM where
  pure a := fun b => (a, b)
  bind m f := fun b => f (m b).1 (m b).2

/-- `board[r][c]`: the only board access the strategies perform. -/
def readCell (r c : Nat) : BoardM Cell := fun b => (cellAt b r c, b)

/-- `getAdjacentCells` with the board threaded; each `board[newX][newY]`
comparison is a `readCell`. -/
def getAdjacentCellsM (x y : Nat) : BoardM (List (Nat × Nat)) :=
  directions.foldlM
    (fun adjacent d => do
      let newX : Int := (x : Int) + d.1
      let newY : Int := (y : Int) + d.2
      if 0 ≤ newX ∧ newX < 10 ∧ 0 ≤ newY ∧ newY < 10 then do
        let c1 ← readCell newX.toNat newY.toNat
        let c2 ← readCell newX.toNat newY.toNat
        if c1 ≠ Cell.hit ∧ c2 ≠ Cell.miss then
          pure (adjacent ++ [(newX.toNat, newY.toNat)])
        else pure adjacent
      else pure adjacent)
    []

/-- `findIncompleteHits` with the board threaded. -/
def findIncompleteHitsM : BoardM (List (Nat × Nat)) :=
  allPositions.foldlM
    (fun incompleteHits rc => do
      let cell ← readCell rc.1 rc.2
      if cell = Cell.hit then do
        let adjacent ← getAdjacentCellsM rc.1 rc.2
        let hasUnexplored ← adjacent.anyM (fun a => do
          let c1 ← readCell a.1 a.2
          let c2 ← readCell a.1 a.2
          pure (decide (c1 ≠ Cell.hit) && decide (c2 ≠ Cell.miss)))
        if hasUnexplored then pure (incompleteHits ++ [rc])
        else pure incompleteHits
      else pure incompleteHits)
    []

/-- `getShipDirection` reads nothing from the board (its board argument
is unused in the source); the thread passes through untouched. -/
def getShipDirectionM (hits : List (Nat × Nat)) : BoardM (Option Orientation) :=
  fun b => (getShipDirection hits b, b)

/-- `getDirectionCells` with the board threaded. -/
def getDirectionCellsM (hit : Nat × Nat) (direction : Orientation) :
    BoardM (List (Nat × Nat)) :=
  match direction with
  | .horizontal =>
      ([-1, 1] : List Int).foldlM
        (fun cells offset => do
          let newY : Int := (hit.2 : Int) + offset
          if 0 ≤ newY ∧ newY < 10 then do
            let c1 ← readCell hit.1 newY.toNat
            let c2 ← readCell hit.1 newY.toNat
            if c1 ≠ Cell.hit ∧ c2 ≠ Cell.miss then
              pure (cells ++ [(hit.1, newY.toNat)])
            else pure cells
          else pure cells)
        []
  | .vertical =>
      ([-1, 1] : List Int).foldlM
        (fun cells offset => do
          let newX : Int := (hit.1 : Int) + offset
          if 0 ≤ newX ∧ newX < 10 then do
            let c1 ← readCell newX.toNat hit.2
            let c2 ← readCell newX.toNat hit.2
            if c1 ≠ Cell.hit ∧ c2 ≠ Cell.miss then
              pure (cells ++ [(newX.toNat, hit.2)])
            else pure cells
          else pure cells)
        []

/-- `easyAI` with the board threaded. -/
def easyAIM (rand : Nat) : BoardM (Option (Nat × Nat)) := do
  let available ← allPositions.foldlM
    (fun acc rc => do
      let c1 ← readCell rc.1 rc.2
      let c2 ← readCell rc.1 rc.2
      if c1 ≠ Cell.hit ∧ c2 ≠ Cell.miss then pure (acc ++ [rc])
      else pure acc)
    []
  if available.isEmpty then pure none
  else pure (available.get? (rand % available.length))

/-- `mediumAI` with the board threaded. -/
def mediumAIM (rand : Nat) : BoardM (Option (Nat × Nat)) := do
  let incompleteHits ← findIncompleteHitsM
  match incompleteHits with
  | hit :: _ => do
      let adjacent ← getAdjacentCellsM hit.1 hit.2
      if adjacent.isEmpty then easyAIM rand
      else pure (adjacent.get? (rand % adjacent.length))
  | [] => easyAIM rand

/-- `hardAI` with the board threaded, written with explicit sequencing
(each `>>=` is one statement boundary of the source).  The sort
comparator only calls the read-only `getAdjacentCells`, so that step
returns the thread unchanged explicitly. -/
def hardAIM (rand : Nat) : BoardM (Option (Nat × Nat)) :=
  findIncompleteHitsM >>= fun incompleteHits =>
  (if 2 ≤ incompleteHits.length then
      getShipDirectionM incompleteHits >>= fun direction =>
      match direction with
      | some dir =>
          match incompleteHits.head? with
          | some hd =>
              getDirectionCellsM hd dir >>= fun cells => pure cells.head?
          | none => pure none
      | none => pure none
    else pure none) >>= fun directionTarget =>
  match directionTarget with
  | some c => pure (some c)
  | none =>
      (match incompleteHits.getLast? with
        | some lastHit =>
            getAdjacentCellsM lastHit.1 lastHit.2 >>= fun adjacent =>
            (fun b =>
              ((adjacent.mergeSort fun a c =>
                  (getAdjacentCells c.1 c.2 b).length ≤
                    (getAdjacentCells a.1 a.2 b).length).head?, b))
        | none => pure none) >>= fun adjacentTarget =>
      match adjacentTarget with
      | some c => pure (some c)
      | none =>
          (allPositions.foldlM
            (fun (acc : List (Nat × Nat) × List (Nat × Nat)) rc => do
              let c1 ← readCell rc.1 rc.2
              let c2 ← readCell rc.1 rc.2
              if c1 ≠ Cell.hit ∧ c2 ≠ Cell.miss then
                if (rc.1 + rc.2) % 2 = 0 then pure (acc.1 ++ [rc], acc.2)
                else pure (acc.1, acc.2 ++ [rc])
              else pure acc)
            ([], [])) >>= fun cbreg =>
          if !cbreg.1.isEmpty then
            pure (cbreg.1.get? (rand % cbreg.1.length))
          else if !cbreg.2.isEmpty then
            pure (cbreg.2.get? (rand % cbreg.2.length))
          else easyAIM rand

/-- `getAIAttack` with the board threaded. -/
def getAIAttackM (difficulty : String) (rand : Nat) :
    BoardM (Option (Nat × Nat)) :=
  if difficulty = "easy" then easyAIM rand
  else if difficulty = "medium" then mediumAIM rand
  else if difficulty = "hard" then hardAIM rand
  else mediumAIM rand

theorem BoardM.bind_apply {α β : Type} (m : BoardM α) (f : α → BoardM β)
    (b : Board) : (m >>= f) b = f (m b).1 (m b).2 := rfl

theorem BoardM.pure_apply {α : Type} (a : α) (b : Board) :
    (pure a : BoardM α) b = (a, b) := rfl

theorem readCell_apply (r c : Nat) (b : Board) :
    readCell r c b = (cellAt b r c, b) := rfl

theorem foldlM_nil {s α : Type} (f : s → α → BoardM s) (init : s) :
    List.foldlM f init ([] : List α) = pure init := rfl

theorem foldlM_cons {s α : Type} (f : s → α → BoardM s) (init : s)
    (a : α) (as : List α) :
    List.foldlM f init (a :: as) =
      f init a >>= fun s' => List.foldlM f s' as := rfl

theorem anyM_nil {α : Type} (f : α → BoardM Bool) :
    List.anyM f ([] : List α) = pure false := rfl

theorem anyM_cons {α : Type} (f : α → BoardM Bool) (a : α) (as : List α) :
    List.anyM f (a :: as) =
      f a >>= fun r => match r with
        | true => pure true
        | false => List.anyM f as := rfl

theorem getAdjacentCellsM_spec (x y : Nat) (b : Board) :
    getAdjacentCellsM x y b = (getAdjacentCells x y b, b) := by
  unfold getAdjacentCellsM getAdjacentCells
  have hloop : ∀ (ds : List (Int × Int)) (acc : List (Nat × Nat)),
      (ds.foldlM (fun (adjacent : List (Nat × Nat)) (d : Int × Int) => do
          let newX : Int := (x : Int) + d.1
          let newY : Int := (y : Int) + d.2
          if 0 ≤ newX ∧ newX < 10 ∧ 0 ≤ newY ∧ newY < 10 then do
            let c1 ← readCell newX.toNat newY.toNat
            let c2 ← readCell newX.toNat newY.toNat
            if c1 ≠ Cell.hit ∧ c2 ≠ Cell.miss then
              pure (adjacent ++ [(newX.toNat, newY.toNat)])
            else pure adjacent
          else pure adjacent) acc) b =
        (acc ++ ds.filterMap (fun d =>
          let newX : Int := (x : Int) + d.1
          let newY : Int := (y : Int) + d.2
          if 0 ≤ newX ∧ newX < 10 ∧ 0 ≤ newY ∧ newY < 10 ∧
              cellAt b newX.toNat newY.toNat ≠ Cell.hit ∧
              cellAt b newX.toNat newY.toNat ≠ Cell.miss then
            some (newX.toNat, newY.toNat)
          else none), b) := by
    intro ds
    induction ds with
    | nil => intro acc; simp [foldlM_nil, BoardM.pure_apply]
    | cons d rest ih =>
        intro acc
        rw [foldlM_cons, BoardM.bind_apply, List.filterMap_cons]
        dsimp only
        by_cases hb : 0 ≤ (x : Int) + d.1 ∧ (x : Int) + d.1 < 10 ∧
            0 ≤ (y : Int) + d.2 ∧ (y : Int) + d.2 < 10
        · by_cases hc :
              cellAt b ((x : Int) + d.1).toNat ((y : Int) + d.2).toNat ≠
                  Cell.hit ∧
              cellAt b ((x : Int) + d.1).toNat ((y : Int) + d.2).toNat ≠
                  Cell.miss
          · rw [if_pos hb, if_pos ⟨hb.1, hb.2.1, hb.2.2.1, hb.2.2.2, hc⟩]
            simp only [BoardM.bind_apply, readCell_apply, BoardM.pure_apply,
              if_pos hc]
            rw [ih]
            simp
          · rw [if_pos hb,
              if_neg (fun hcon => hc ⟨hcon.2.2.2.2.1, hcon.2.2.2.2.2⟩)]
            simp only [BoardM.bind_apply, readCell_apply, BoardM.pure_apply,
              if_neg hc]
            rw [ih]
        · rw [if_neg hb, if_neg (fun hcon => hb ⟨hcon.1, hcon.2.1,
            hcon.2.2.1, hcon.2.2.2.1⟩)]
          simp only [BoardM.pure_apply]
          rw [ih]
  exact hloop directions []

theorem getDirectionCellsM_spec (hit : Nat × Nat) (direction : Orientation)
    (b : Board) :
    getDirectionCellsM hit direction b = (getDirectionCells hit direction b, b) := by
  cases direction with
  | horizontal =>
      unfold getDirectionCellsM getDirectionCells
      have hloop : ∀ (ds : List Int) (acc : List (Nat × Nat)),
          (ds.foldlM (fun (cells : List (Nat × Nat)) (offset : Int) => do
              let newY : Int := (hit.2 : Int) + offset
              if 0 ≤ newY ∧ newY < 10 then do
                let c1 ← readCell hit.1 newY.toNat
                let c2 ← readCell hit.1 newY.toNat
                if c1 ≠ Cell.hit ∧ c2 ≠ Cell.miss then
                  pure (cells ++ [(hit.1, newY.toNat)])
                else pure cells
              else pure cells) acc) b =
            (acc ++ ds.filterMap (fun offset =>
              let newY : Int := (hit.2 : Int) + offset
              if 0 ≤ newY ∧ newY < 10 ∧
                  cellAt b hit.1 newY.toNat ≠ Cell.hit ∧
                  cellAt b hit.1 newY.toNat ≠ Cell.miss then
                some (hit.1, newY.toNat)
              else none), b) := by
        intro ds
        induction ds with
        | nil => intro acc; simp [foldlM_nil, BoardM.pure_apply]
        | cons d rest ih =>
            intro acc
            rw [foldlM_cons, BoardM.bind_apply, List.filterMap_cons]
            dsimp only
            by_cases hb : 0 ≤ (hit.2 : Int) + d ∧ (hit.2 : Int) + d < 10
            · by_cases hc :
                  cellAt b hit.1 ((hit.2 : Int) + d).toNat ≠ Cell.hit ∧
                  cellAt b hit.1 ((hit.2 : Int) + d).toNat ≠ Cell.miss
              · rw [if_pos hb, if_pos ⟨hb.1, hb.2, hc⟩]
                simp only [BoardM.bind_apply, readCell_apply,
                  BoardM.pure_apply, if_pos hc]
                rw [ih]
                simp
              · rw [if_pos hb,
                  if_neg (fun hcon => hc ⟨hcon.2.2.1, hcon.2.2.2⟩)]
                simp only [BoardM.bind_apply, readCell_apply,
                  BoardM.pure_apply, if_neg hc]
                rw [ih]
            · rw [if_neg hb, if_neg (fun hcon => hb ⟨hcon.1, hcon.2.1⟩)]
              simp only [BoardM.pure_apply]
              rw [ih]
      exact hloop [-1, 1] []
  | vertical =>
      unfold getDirectionCellsM getDirectionCells
      have hloop : ∀ (ds : List Int) (acc : List (Nat × Nat)),
          (ds.foldlM (fun (cells : List (Nat × Nat)) (offset : Int) => do
              let newX : Int := (hit.1 : Int) + offset
              if 0 ≤ newX ∧ newX < 10 then do
                let c1 ← readCell newX.toNat hit.2
                let c2 ← readCell newX.toNat hit.2
                if c1 ≠ Cell.hit ∧ c2 ≠ Cell.miss then
                  pure (cells ++ [(newX.toNat, hit.2)])
                else pure cells
              else pure cells) acc) b =
            (acc ++ ds.filterMap (fun offset =>
              let newX : Int := (hit.1 : Int) + offset
              if 0 ≤ newX ∧ newX < 10 ∧
                  cellAt b newX.toNat hit.2 ≠ Cell.hit ∧
                  cellAt b newX.toNat hit.2 ≠ Cell.miss then
                some (newX.toNat, hit.2)
              else none), b) := by
        intro ds
        induction ds with
        | nil => intro acc; simp [foldlM_nil, BoardM.pure_apply]
        | cons d rest ih =>
            intro acc
            rw [foldlM_cons, BoardM.bind_apply, List.filterMap_cons]
            dsimp only
            by_cases hb : 0 ≤ (hit.1 : Int) + d ∧ (hit.1 : Int) + d < 10
            · by_cases hc :
                  cellAt b ((hit.1 : Int) + d).toNat hit.2 ≠ Cell.hit ∧
                  cellAt b ((hit.1 : Int) + d).toNat hit.2 ≠ Cell.miss
              · rw [if_pos hb, if_pos ⟨hb.1, hb.2, hc⟩]
                simp only [BoardM.bind_apply, readCell_apply,
                  BoardM.pure_apply, if_pos hc]
                rw [ih]
                simp
              · rw [if_pos hb,
                  if_neg (fun hcon => hc ⟨hcon.2.2.1, hcon.2.2.2⟩)]
                simp only [BoardM.bind_apply, readCell_apply,
                  BoardM.pure_apply, if_neg hc]
                rw [ih]
            · rw [if_neg hb, if_neg (fun hcon => hb ⟨hcon.1, hcon.2.1⟩)]
              simp only [BoardM.pure_apply]
              rw [ih]
      exact hloop [-1, 1] []

theorem findIncompleteHitsM_spec (b : Board) :
    findIncompleteHitsM b = (findIncompleteHits b, b) := by
  unfold findIncompleteHitsM findIncompleteHits
  have hany : ∀ (l : List (Nat × Nat)),
      (l.anyM (fun (a : Nat × Nat) => do
          let c1 ← readCell a.1 a.2
          let c2 ← readCell a.1 a.2
          pure (decide (c1 ≠ Cell.hit) && decide (c2 ≠ Cell.miss)))) b =
        (l.any (fun a => decide (cellAt b a.1 a.2 ≠ Cell.hit) &&
          decide (cellAt b a.1 a.2 ≠ Cell.miss)), b) := by
    intro l
    induction l with
    | nil => simp [anyM_nil, BoardM.pure_apply]
    | cons a as ih =>
        rw [anyM_cons, BoardM.bind_apply]
        simp only [BoardM.bind_apply, readCell_apply, BoardM.pure_apply]
        cases hcond : decide (cellAt b a.1 a.2 ≠ Cell.hit) &&
            decide (cellAt b a.1 a.2 ≠ Cell.miss)
        · dsimp only
          rw [ih]
          simp only [List.any_cons, hcond, Bool.false_or]
        · dsimp only
          simp only [BoardM.pure_apply, List.any_cons, hcond, Bool.true_or]
  have hloop : ∀ (ps : List (Nat × Nat)) (acc : List (Nat × Nat)),
      (ps.foldlM (fun (incompleteHits : List (Nat × Nat)) (rc : Nat × Nat) => do
          let cell ← readCell rc.1 rc.2
          if cell = Cell.hit then do
            let adjacent ← getAdjacentCellsM rc.1 rc.2
            let hasUnexplored ← adjacent.anyM (fun (a : Nat × Nat) => do
              let c1 ← readCell a.1 a.2
              let c2 ← readCell a.1 a.2
              pure (decide (c1 ≠ Cell.hit) && decide (c2 ≠ Cell.miss)))
            if hasUnexplored then pure (incompleteHits ++ [rc])
            else pure incompleteHits
          else pure incompleteHits) acc) b =
        (acc ++ ps.filter (fun rc =>
          decide (cellAt b rc.1 rc.2 = Cell.hit) &&
            (getAdjacentCells rc.1 rc.2 b).any (fun a =>
              decide (cellAt b a.1 a.2 ≠ Cell.hit) &&
                decide (cellAt b a.1 a.2 ≠ Cell.miss))), b) := by
    intro ps
    induction ps with
    | nil => intro acc; simp [foldlM_nil, BoardM.pure_apply]
    | cons rc rest ih =>
        intro acc
        rw [foldlM_cons, BoardM.bind_apply, List.filter_cons]
        by_cases hhit : cellAt b rc.1 rc.2 = Cell.hit
        · simp only [BoardM.bind_apply, readCell_apply, BoardM.pure_apply,
            if_pos hhit, getAdjacentCellsM_spec, hany]
          split
          · rename_i hu
            simp only [BoardM.pure_apply]
            rw [ih]
            simp only [decide_not] at hu
            simp [hhit, hu]
          · rename_i hu
            simp only [BoardM.pure_apply]
            rw [ih]
            simp only [decide_not] at hu
            simp [hhit, hu]
        · simp only [BoardM.bind_apply, readCell_apply, BoardM.pure_apply,
            if_neg hhit]
          rw [ih]
          simp [hhit]
  rw [hloop allPositions []]
  simp

theorem easyAIM_spec (rand : Nat) (b : Board) :
    easyAIM rand b = (easyAI b rand, b) := by
  unfold easyAIM easyAI availableCells
  have hloop : ∀ (ps : List (Nat × Nat)) (acc : List (Nat × Nat)),
      (ps.foldlM (fun (acc' : List (Nat × Nat)) (rc : Nat × Nat) => do
          let c1 ← readCell rc.1 rc.2
          let c2 ← readCell rc.1 rc.2
          if c1 ≠ Cell.hit ∧ c2 ≠ Cell.miss then pure (acc' ++ [rc])
          else pure acc') acc) b =
        (acc ++ ps.filter (fun rc =>
          decide (cellAt b rc.1 rc.2 ≠ Cell.hit) &&
            decide (cellAt b rc.1 rc.2 ≠ Cell.miss)), b) := by
    intro ps
    induction ps with
    | nil => intro acc; simp [foldlM_nil, BoardM.pure_apply]
    | cons rc rest ih =>
        intro acc
        rw [foldlM_cons, BoardM.bind_apply, List.filter_cons]
        by_cases hc : cellAt b rc.1 rc.2 ≠ Cell.hit ∧
            cellAt b rc.1 rc.2 ≠ Cell.miss
        · simp only [BoardM.bind_apply, readCell_apply, BoardM.pure_apply,
            if_pos hc]
          rw [ih]
          simp [hc]
        · simp only [BoardM.bind_apply, readCell_apply, BoardM.pure_apply,
            if_neg hc]
          rw [ih]
          have hcb : (decide (cellAt b rc.1 rc.2 ≠ Cell.hit) &&
              decide (cellAt b rc.1 rc.2 ≠ Cell.miss)) = false := by
            rcases Decidable.not_and_iff_or_not.mp hc with h | h <;>
              simp [h]
          simp [hcb]
          rw [if_neg hc]
  rw [BoardM.bind_apply, hloop]
  simp only [List.nil_append]
  split
  · rw [BoardM.pure_apply]
  · rw [BoardM.pure_apply]

theorem mediumAIM_spec (rand : Nat) (b : Board) :
    mediumAIM rand b = (mediumAI b rand, b) := by
  unfold mediumAIM mediumAI
  rw [BoardM.bind_apply, findIncompleteHitsM_spec]
  dsimp only
  cases hfl : findIncompleteHits b with
  | nil => exact easyAIM_spec rand b
  | cons hd rest =>
      dsimp only
      rw [BoardM.bind_apply, getAdjacentCellsM_spec]
      dsimp only
      split
      · exact easyAIM_spec rand b
      · rw [BoardM.pure_apply]

theorem hardAIM_spec (rand : Nat) (b : Board) :
    hardAIM rand b = (hardAI b rand, b) := by
  unfold hardAIM hardAI
  rw [BoardM.bind_apply, findIncompleteHitsM_spec]
  dsimp only
  have hdt :
      (if 2 ≤ (findIncompleteHits b).length then do
          let direction ← getShipDirectionM (findIncompleteHits b)
          match direction with
          | some dir =>
              match (findIncompleteHits b).head? with
              | some hd => do
                  let cells ← getDirectionCellsM hd dir
                  pure cells.head?
              | none => pure none
          | none => pure none
        else pure (none : Option (Nat × Nat))) b =
      ((if 2 ≤ (findIncompleteHits b).length then
          match getShipDirection (findIncompleteHits b) b with
          | some direction =>
              match (findIncompleteHits b).head? with
              | some h1 => (getDirectionCells h1 direction b).head?
              | none => none
          | none => none
        else none), b) := by
    by_cases hlen : 2 ≤ (findIncompleteHits b).length
    · rw [if_pos hlen, if_pos hlen]
      rw [BoardM.bind_apply]
      show (match getShipDirection (findIncompleteHits b) b with
        | some dir =>
            match (findIncompleteHits b).head? with
            | some hd => getDirectionCellsM hd dir >>= fun cells =>
                pure cells.head?
            | none => pure none
        | none => pure (none : Option (Nat × Nat))) b = _
      cases hdir : getShipDirection (findIncompleteHits b) b with
      | none => rfl
      | some dir =>
          cases hhd : (findIncompleteHits b).head? with
          | none => rfl
          | some hd =>
              dsimp only
              rw [BoardM.bind_apply, getDirectionCellsM_spec]
              rfl
    · rw [if_neg hlen, if_neg hlen, BoardM.pure_apply]
  rw [BoardM.bind_apply, hdt]
  dsimp only
  cases hdtv : (if 2 ≤ (findIncompleteHits b).length then
      match getShipDirection (findIncompleteHits b) b with
      | some direction =>
          match (findIncompleteHits b).head? with
          | some h1 => (getDirectionCells h1 direction b).head?
          | none => none
      | none => none
    else none) with
  | some c => rfl
  | none =>
      dsimp only
      have hat :
          (match (findIncompleteHits b).getLast? with
            | some lastHit =>
                getAdjacentCellsM lastHit.1 lastHit.2 >>= fun adjacent =>
                  (fun b' =>
                    ((adjacent.mergeSort fun a c =>
                        (getAdjacentCells c.1 c.2 b').length ≤
                          (getAdjacentCells a.1 a.2 b').length).head?, b'))
            | none => pure (none : Option (Nat × Nat))) b =
          ((match (findIncompleteHits b).getLast? with
            | some lastHit =>
                ((getAdjacentCells lastHit.1 lastHit.2 b).mergeSort fun a c =>
                    (getAdjacentCells c.1 c.2 b).length ≤
                      (getAdjacentCells a.1 a.2 b).length).head?
            | none => none), b) := by
        cases hlast : (findIncompleteHits b).getLast? with
        | none => rfl
        | some lastHit =>
            dsimp only
            rw [BoardM.bind_apply, getAdjacentCellsM_spec]
      rw [BoardM.bind_apply, hat]
      dsimp only
      cases hatv : (match (findIncompleteHits b).getLast? with
        | some lastHit =>
            ((getAdjacentCells lastHit.1 lastHit.2 b).mergeSort fun a c =>
                (getAdjacentCells c.1 c.2 b).length ≤
                  (getAdjacentCells a.1 a.2 b).length).head?
        | none => none) with
      | some c => rfl
      | none =>
          dsimp only
          have hcbreg : ∀ (ps : List (Nat × Nat))
              (acc : List (Nat × Nat) × List (Nat × Nat)),
              (ps.foldlM (fun (acc' : List (Nat × Nat) × List (Nat × Nat))
                  (rc : Nat × Nat) => do
                  let c1 ← readCell rc.1 rc.2
                  let c2 ← readCell rc.1 rc.2
                  if c1 ≠ Cell.hit ∧ c2 ≠ Cell.miss then
                    if (rc.1 + rc.2) % 2 = 0 then
                      pure (acc'.1 ++ [rc], acc'.2)
                    else pure (acc'.1, acc'.2 ++ [rc])
                  else pure acc') acc) b =
                ((acc.1 ++ ps.filter (fun rc =>
                    (decide (cellAt b rc.1 rc.2 ≠ Cell.hit) &&
                       decide (cellAt b rc.1 rc.2 ≠ Cell.miss)) &&
                      decide ((rc.1 + rc.2) % 2 = 0)),
                  acc.2 ++ ps.filter (fun rc =>
                    (decide (cellAt b rc.1 rc.2 ≠ Cell.hit) &&
                       decide (cellAt b rc.1 rc.2 ≠ Cell.miss)) &&
                      decide ((rc.1 + rc.2) % 2 ≠ 0))), b) := by
            intro ps
            induction ps with
            | nil => intro acc; simp [foldlM_nil, BoardM.pure_apply]
            | cons rc rest ih =>
                intro acc
                rw [foldlM_cons, BoardM.bind_apply, List.filter_cons,
                  List.filter_cons]
                by_cases hc : cellAt b rc.1 rc.2 ≠ Cell.hit ∧
                    cellAt b rc.1 rc.2 ≠ Cell.miss
                · by_cases hpar : (rc.1 + rc.2) % 2 = 0
                  · simp only [BoardM.bind_apply, readCell_apply,
                      BoardM.pure_apply, if_pos hc, if_pos hpar]
                    rw [ih]
                    simp [hc, hpar]
                  · simp only [BoardM.bind_apply, readCell_apply,
                      BoardM.pure_apply, if_pos hc, if_neg hpar]
                    rw [ih]
                    simp [hc, hpar]
                · simp only [BoardM.bind_apply, readCell_apply,
                    BoardM.pure_apply, if_neg hc]
                  rw [ih]
                  have hcb : (decide (cellAt b rc.1 rc.2 ≠ Cell.hit) &&
                      decide (cellAt b rc.1 rc.2 ≠ Cell.miss)) = false := by
                    rcases Decidable.not_and_iff_or_not.mp hc with h | h <;>
                      simp [h]
                  simp [hcb]
                  exact ⟨by rw [if_neg (fun hcon => hc hcon.1)],
                    by rw [if_neg (fun hcon => hc hcon.1)]⟩
          rw [BoardM.bind_apply, hcbreg]
          dsimp only [List.nil_append]
          rw [show (allPositions.filter (fun rc =>
              (decide (cellAt b rc.1 rc.2 ≠ Cell.hit) &&
                 decide (cellAt b rc.1 rc.2 ≠ Cell.miss)) &&
                decide ((rc.1 + rc.2) % 2 = 0))) = checkerboardCells b
              from rfl,
            show (allPositions.filter (fun rc =>
              (decide (cellAt b rc.1 rc.2 ≠ Cell.hit) &&
                 decide (cellAt b rc.1 rc.2 ≠ Cell.miss)) &&
                decide ((rc.1 + rc.2) % 2 ≠ 0))) = regularCells b
              from rfl]
          split
          · rw [BoardM.pure_apply]
          · split
            · rw [BoardM.pure_apply]
            · exact easyAIM_spec rand b

/-- C10.  The strategy selector never writes to the board it is given:
threading the board through every statement of `getAIAttack` and its
helpers returns the input board unchanged, together with exactly the
answer of the direct (pure) embedding. -/
theorem getAIAttackM_preserves_board (b : Board) (difficulty : String)
    (rand : Nat) :
    getAIAttackM difficulty rand b = (getAIAttack b difficulty rand, b) := by
  unfold getAIAttackM getAIAttack
  split_ifs
  · exact easyAIM_spec rand b
  · exact mediumAIM_spec rand b
  · exact hardAIM_spec rand b
  · exact mediumAIM_spec rand b

end Battleship
